import Mathlib

/-!
Verification of the wit home-climate controller core (cmd/main.go): the
schedule evaluator, the actuation state machine, the persisted state store
and the scheduler daemon cycle, shallowly embedded in Lean. Strings are
modelled at the character-list level so that every definition reduces by
structural recursion.
-/

deriving instance DecidableEq for Except

namespace Wit

/-- Parsed schedule rule; mirrors the scheduleTime struct of cmd/main.go,
built by newScheduleTime(hour, min, action). -/
structure scheduleTime where
  hour : Int
  min : Int
  action : String
deriving DecidableEq

/-- Persisted state record; mirrors the State struct of cmd/main.go. -/
structure State where
  OpMode : String
  Schedule : String
  Manual : Bool
  Override : Bool
  Running : Bool
deriving DecidableEq

/-- Go strings.TrimSpace at the character level: whitespace is removed from
both ends. -/
def trimList (l : List Char) : List Char :=
  ((l.dropWhile Char.isWhitespace).reverse.dropWhile Char.isWhitespace).reverse

/-- Go strings.TrimSpace on a string value, as applied to the schedule text
before it is persisted. -/
def strTrim (s : String) : String :=
  String.mk (trimList s.data)

/-- Go strings.Split with a one-character separator: separators delimit the
pieces, and the empty input yields one empty piece. -/
def splitChar (sep : Char) : List Char → List (List Char)
  | [] => [[]]
  | c :: rest =>
    let r := splitChar sep rest
    if c == sep then [] :: r
    else
      match r with
      | h :: t => (c :: h) :: t
      | [] => [[c]]

/-- Go strings.HasPrefix(line, the comment marker), used to skip comment
lines of the schedule. -/
def startsWithHash (l : List Char) : Bool :=
  match l with
  | c :: _ => c == '#'
  | [] => false

/-- Go strconv.Atoi as used on the schedule tokens: an optional sign followed
by one or more decimal digits. The 64-bit range error of Go is not modelled;
an out-of-range value is instead rejected by the range check that follows
every Atoi call in the source, so both models reject the same lines. -/
def atoi (tok : List Char) : Except String Int :=
  let body := match tok with
    | c :: rest => if c == '-' || c == '+' then rest else tok
    | [] => []
  let neg := match tok with
    | c :: _ => c == '-'
    | [] => false
  if body.isEmpty || !(body.all Char.isDigit) then
    Except.error ("parsing " ++ String.mk tok ++ ": invalid syntax")
  else
    let n : Nat := body.foldl (fun a c => a * 10 + (c.toNat - 48)) 0
    Except.ok (if neg then -(n : Int) else (n : Int))

/-- One non-empty, non-comment line of the schedule, processed exactly as the
loop body of parseSchedule in cmd/main.go: split on single spaces after
trimming, then check token count, action, hour, minute and day type in source
order. Returns none when the line is skipped because its day type does not
apply to the current day. -/
def parseLine (isWeekend : Bool) (line : List Char) : Except String (Option scheduleTime) :=
  match splitChar ' ' (trimList line) with
  | [minTok, hourTok, dayTok, actTok] =>
    if actTok ≠ "on".data ∧ actTok ≠ "off".data then
      Except.error "schedule can only be on or off"
    else match atoi hourTok with
    | Except.error e => Except.error e
    | Except.ok hour =>
      if hour < 0 ∨ hour > 23 then Except.error "hour is invalid"
      else match atoi minTok with
      | Except.error e => Except.error e
      | Except.ok mn =>
        if mn < 0 ∨ mn > 59 then Except.error "minute is invalid"
        else if dayTok = "weekend".data ∨ dayTok = "weekday".data then
          (if isWeekend then
            (if dayTok = "weekend".data then Except.ok (some ⟨hour, mn, String.mk actTok⟩)
             else Except.ok none)
           else
            (if dayTok = "weekend".data then Except.ok none
             else Except.ok (some ⟨hour, mn, String.mk actTok⟩)))
        else Except.error "invalid day type"
  | _ => Except.error "invalid schedule line, should be min hour action"

/-- Folds parseLine over the schedule lines, skipping empty lines and lines
starting with the comment marker, keeping rules in file order and aborting
with the error of the first invalid line, as the loop of parseSchedule does. -/
def parseLines (isWeekend : Bool) : List (List Char) → Except String (List scheduleTime)
  | [] => Except.ok []
  | line :: rest =>
    if line.isEmpty || startsWithHash line then parseLines isWeekend rest
    else match parseLine isWeekend line with
      | Except.error e => Except.error e
      | Except.ok none => parseLines isWeekend rest
      | Except.ok (some t) =>
        match parseLines isWeekend rest with
        | Except.error e => Except.error e
        | Except.ok ts => Except.ok (t :: ts)

/-- Timing list of parseSchedule: the synthetic 00:00 off rule followed by the
kept rules of the schedule text in file order. -/
def parseTimings (isWeekend : Bool) (schedule : String) : Except String (List scheduleTime) :=
  match parseLines isWeekend (splitChar '\n' (trimList schedule.data)) with
  | Except.error e => Except.error e
  | Except.ok rs => Except.ok (⟨0, 0, "off"⟩ :: rs)

/-- Matching loop at the end of parseSchedule in cmd/main.go: walk the timings
in order carrying the current match, update it on a componentwise comparison
of minute and hour, and stop once a match exists and a timing is strictly
later in both components. -/
def matchLoop (now : scheduleTime) (m : String) : List scheduleTime → String
  | [] => m
  | t :: ts =>
    let m2 := if now.min ≥ t.min ∧ now.hour ≥ t.hour then t.action else m
    if m2 ≠ "" ∧ now.min < t.min ∧ now.hour < t.hour then m2
    else matchLoop now m2 ts

/-- The parseSchedule function of cmd/main.go with the ambient time.Now()
made explicit: the weekend flag and the current hour and minute are
parameters. Returns the matched action, with the empty string for none. -/
def parseSchedule (isWeekend : Bool) (nowHour nowMin : Int) (schedule : String) :
    Except String String :=
  match parseTimings isWeekend schedule with
  | Except.error e => Except.error e
  | Except.ok ts => Except.ok (matchLoop ⟨nowHour, nowMin, ""⟩ "" ts)

/-- Componentwise comparison described by the claim: a rule matches exactly
when the current minute and hour are each at least the rule values. This is
not a chronological comparison. -/
def specMatches (now t : scheduleTime) : Bool :=
  decide (now.min ≥ t.min) && decide (now.hour ≥ t.hour)

/-- A rule strictly later than now in both components; once a match exists,
scanning stops at the first such rule. -/
def specLater (now t : scheduleTime) : Bool :=
  decide (now.min < t.min) && decide (now.hour < t.hour)

/-- Scanned prefix of the timing list as the claim describes it: rules are
visited in file order, and scanning stops just after the first rule that is
strictly later in both components once some rule has matched. -/
def specScan (now : scheduleTime) (matched : Bool) : List scheduleTime → List scheduleTime
  | [] => []
  | t :: ts =>
    let matched2 := matched || specMatches now t
    if matched2 && specLater now t then [t]
    else t :: specScan now matched2 ts

/-- Result described by the claim: the action of the last matching rule of
the scanned prefix, or none (the empty string) when no scanned rule
matches. -/
def specResult (now : scheduleTime) (ts : List scheduleTime) : String :=
  match ((specScan now false ts).filter (specMatches now)).getLast? with
  | some t => t.action
  | none => ""

/-- Validity of one schedule line as the spec words it: four tokens, a
numeric minute in 0..59, a numeric hour in 0..23, a known day type and a
known action. -/
def specLineValid (line : List Char) : Bool :=
  match splitChar ' ' (trimList line) with
  | [minTok, hourTok, dayTok, actTok] =>
    (match atoi minTok with
     | Except.ok v => decide (0 ≤ v ∧ v ≤ 59)
     | Except.error _ => false) &&
    (match atoi hourTok with
     | Except.ok v => decide (0 ≤ v ∧ v ≤ 23)
     | Except.error _ => false) &&
    (dayTok == "weekday".data || dayTok == "weekend".data) &&
    (actTok == "on".data || actTok == "off".data)
  | _ => false

/-- Lowercase hexadecimal digit, as used by the JSON encoder of the Go
standard library. -/
def hexDigitChar (n : Nat) : Char :=
  if n < 10 then Char.ofNat (48 + n) else Char.ofNat (87 + n)

/-- Escaping of one character by encoding/json.Marshal with its default
HTML-escaping encoder: quote, backslash, newline, carriage return and tab
get two-character escapes; other control characters and the HTML-sensitive
characters get a six-character u-escape, as do U+2028 and U+2029. -/
def escapeChar (c : Char) : List Char :=
  if c = '"' then ['\\', '"']
  else if c = '\\' then ['\\', '\\']
  else if c = '\n' then ['\\', 'n']
  else if c = '\r' then ['\\', 'r']
  else if c = '\t' then ['\\', 't']
  else if c = '<' ∨ c = '>' ∨ c = '&' ∨ c.toNat < 32 then
    ['\\', 'u', '0', '0', hexDigitChar (c.toNat / 16), hexDigitChar (c.toNat % 16)]
  else if c.toNat = 8232 ∨ c.toNat = 8233 then
    ['\\', 'u', '2', '0', '2', hexDigitChar (c.toNat % 16)]
  else [c]

/-- JSON string literal: quote, escaped characters, quote. -/
def encodeString (s : String) : List Char :=
  '"' :: ((s.data.map escapeChar).flatten ++ ['"'])

/-- JSON boolean literals. -/
def encodeBool (b : Bool) : List Char :=
  if b then ['t', 'r', 'u', 'e'] else ['f', 'a', 'l', 's', 'e']

/-- Field header of the first serialized State field, in Go struct order. -/
def keyOpMode : List Char := ['\x7b', '"', 'O', 'p', 'M', 'o', 'd', 'e', '"', ':']

/-- Field header of the Schedule field. -/
def keySchedule : List Char := [',', '"', 'S', 'c', 'h', 'e', 'd', 'u', 'l', 'e', '"', ':']

/-- Field header of the Manual field. -/
def keyManual : List Char := [',', '"', 'M', 'a', 'n', 'u', 'a', 'l', '"', ':']

/-- Field header of the Override field. -/
def keyOverride : List Char := [',', '"', 'O', 'v', 'e', 'r', 'r', 'i', 'd', 'e', '"', ':']

/-- Field header of the Running field. -/
def keyRunning : List Char := [',', '"', 'R', 'u', 'n', 'n', 'i', 'n', 'g', '"', ':']

/-- Serialized State record at the character level: an object with the five
fields in declaration order and no whitespace, as encoding/json.Marshal
emits it. -/
def encodeStateChars (s : State) : List Char :=
  keyOpMode ++ encodeString s.OpMode ++ keySchedule ++ encodeString s.Schedule ++
    keyManual ++ encodeBool s.Manual ++ keyOverride ++ encodeBool s.Override ++
    keyRunning ++ encodeBool s.Running ++ ['\x7d']

/-- encoding/json.Marshal of the State struct. -/
def encodeState (s : State) : String :=
  String.mk (encodeStateChars s)

/-- Value of one hexadecimal digit accepted by the JSON string decoder. -/
def hexVal (c : Char) : Option Nat :=
  if '0' ≤ c ∧ c ≤ '9' then some (c.toNat - 48)
  else if 'a' ≤ c ∧ c ≤ 'f' then some (c.toNat - 87)
  else if 'A' ≤ c ∧ c ≤ 'F' then some (c.toNat - 55)
  else none

/-- Single-character escapes accepted after a backslash by the JSON string
decoder. -/
def unescapeChar (e : Char) : Option Char :=
  if e = '"' then some '"'
  else if e = '\\' then some '\\'
  else if e = '/' then some '/'
  else if e = 'n' then some '\n'
  else if e = 'r' then some '\r'
  else if e = 't' then some '\t'
  else if e = 'b' then some (Char.ofNat 8)
  else if e = 'f' then some (Char.ofNat 12)
  else none

/-- Body of a JSON string after the opening quote: unescape until the
closing quote, returning the content and the remainder. A backslash is
followed either by a u-escape of four hexadecimal digits or by a
single-character escape; the arm order makes a backslash never fall through
to the plain-character arm, and a lone trailing backslash fails because the
table has no entry for the end of input. Surrogate pairs are not needed:
the encoder u-escapes only code points below 0x20 and a few fixed BMP
characters. -/
def parseStringBody : List Char → Option (List Char × List Char)
  | [] => none
  | '"' :: rest => some ([], rest)
  | '\\' :: 'u' :: a :: b :: c2 :: d :: rest =>
    (match hexVal a, hexVal b, hexVal c2, hexVal d with
     | some ha, some hb, some hc, some hd =>
       (match parseStringBody rest with
        | some (out, rem) =>
          some (Char.ofNat (((ha * 16 + hb) * 16 + hc) * 16 + hd) :: out, rem)
        | none => none)
     | _, _, _, _ => none)
  | '\\' :: e :: rest =>
    (match unescapeChar e with
     | some ch =>
       (match parseStringBody rest with
        | some (out, rem) => some (ch :: out, rem)
        | none => none)
     | none => none)
  | c :: rest =>
    (match parseStringBody rest with
     | some (out, rem) => some (c :: out, rem)
     | none => none)

/-- Literal token expected at the head of the input, consumed. -/
def dropLit : List Char → List Char → Option (List Char)
  | [], l => some l
  | _ :: _, [] => none
  | p :: ps, c :: cs => if c = p then dropLit ps cs else none

/-- A JSON string, with its quotes. -/
def parseJString (l : List Char) : Option (String × List Char) :=
  match l with
  | c :: rest =>
    if c = '"' then
      match parseStringBody rest with
      | some (out, rem) => some (String.mk out, rem)
      | none => none
    else none
  | [] => none

/-- A JSON boolean literal. -/
def parseJBool (l : List Char) : Option (Bool × List Char) :=
  match dropLit ['t', 'r', 'u', 'e'] l with
  | some r => some (true, r)
  | none =>
    match dropLit ['f', 'a', 'l', 's', 'e'] l with
    | some r => some (false, r)
    | none => none

/-- encoding/json.Unmarshal into the State struct, specialized to the
serialization shape Marshal emits (fixed field order, no whitespace). The
state file is only ever written through setState, so these are the only
byte strings getState must accept; any other content is a decode error. -/
def decodeStateChars (l : List Char) : Option State :=
  match dropLit keyOpMode l with
  | none => none
  | some r0 =>
    match parseJString r0 with
    | none => none
    | some (op, r1) =>
      match dropLit keySchedule r1 with
      | none => none
      | some r2 =>
        match parseJString r2 with
        | none => none
        | some (sch, r3) =>
          match dropLit keyManual r3 with
          | none => none
          | some r4 =>
            match parseJBool r4 with
            | none => none
            | some (mb, r5) =>
              match dropLit keyOverride r5 with
              | none => none
              | some r6 =>
                match parseJBool r6 with
                | none => none
                | some (ob, r7) =>
                  match dropLit keyRunning r7 with
                  | none => none
                  | some r8 =>
                    match parseJBool r8 with
                    | none => none
                    | some (rb, r9) =>
                      match r9 with
                      | ['\x7d'] => some ⟨op, sch, mb, ob, rb⟩
                      | _ => none

/-- encoding/json.Unmarshal of a state file. -/
def decodeState (content : String) : Option State :=
  decodeStateChars content.data

/-- The getState of cmd/main.go on the modelled state file: a missing file
yields the zero-valued State, an unreadable or malformed file is an error
(none), and otherwise the stored JSON is decoded. -/
def getState (file : Option String) : Option State :=
  match file with
  | none => some ⟨"", "", false, false, false⟩
  | some b => decodeState b

/-- The setState of cmd/main.go: serialize the full record and replace the
file contents. -/
def setState (s : State) : Option String :=
  some (encodeState s)

/-- Ambient configuration and environment of an act call: the operation
modes and LIRC name discovered from the configuration, the device socket and
irsend binary, the outcome of the single possible irsend invocation, and the
current time used by schedule validation. -/
structure Env where
  opModes : List String
  lircName : String
  socket : String
  irSend : String
  irOk : Bool
  isWeekend : Bool
  nowHour : Int
  nowMin : Int

/-- Parsed form fields of a schedule request; each value is the raw
multi-value form entry, joined exactly as act joins it. -/
structure Form where
  opmode : Option (List String)
  manual : Bool
  sched : Option (List String)

/-- Outcome of an act call or a daemon cycle over the file-backed store: the
returned error if any, the resulting file contents, every state persisted by
setState in order, and every irsend invocation as its argument vector. -/
structure ActOut where
  err : Option String
  file : Option String
  writes : List State
  sends : List (List String)
deriving DecidableEq

/-- The act function of cmd/main.go over the modelled store. The req
argument is none for the daemon (webRequest false) and some form for a web
request; isChange is the HTTP-method flag, and the daemon passes true. Form
parsing is assumed to succeed, and the single possible actuator invocation
succeeds exactly when env.irOk. -/
def act (action : String) (isChange : Bool) (req : Option Form) (env : Env)
    (file : Option String) : ActOut :=
  let webRequest := req.isSome
  match getState file with
  | none => ⟨some "state unreadable", file, [], []⟩
  | some state =>
    let canChange := !(state.Override && !webRequest)
    if isChange then
      if action = "calibrate" then
        let s1 : State := {state with Running := !state.Running}
        ⟨none, setState s1, [s1], []⟩
      else if action = "on" ∨ action = "off" then
        let afterLock :=
          if !state.Manual && webRequest then
            let s1 : State := {state with Override := true}
            (s1, setState s1, [s1])
          else (state, file, ([] : List State))
        let s1 := afterLock.1
        let file1 := afterLock.2.1
        let writes1 := afterLock.2.2
        let isOn := action = "on"
        if canChange then
          let actuating := if isOn then !s1.Running else s1.Running
          if actuating then
            if env.opModes.contains s1.OpMode then
              let argv := [env.irSend, "--device=" ++ env.socket, "SEND_ONCE",
                env.lircName, s1.OpMode]
              if env.irOk then
                let s2 : State := {s1 with Running := !s1.Running}
                ⟨none, setState s2, writes1 ++ [s2], [argv]⟩
              else ⟨some "irsend failed", file1, writes1, [argv]⟩
            else ⟨some ("invalid mode: " ++ s1.OpMode), file1, writes1, []⟩
          else ⟨none, file1, writes1, []⟩
        else ⟨none, file1, writes1, []⟩
      else if action = "togglelock" then
        let s1 : State := {state with Override := !state.Override}
        ⟨none, setState s1, [s1], []⟩
      else if action = "schedule" then
        match req with
        | none => ⟨some "no form", file, [], []⟩
        | some form =>
          let s1 :=
            match form.opmode with
            | some v =>
              let selectedMode := strTrim (String.intercalate "" v)
              if selectedMode ≠ "noop" then {state with OpMode := selectedMode} else state
            | none => state
          let schedule :=
            match form.sched with
            | some v => String.intercalate "\n" v
            | none => ""
          let validated : Option String :=
            match form.sched with
            | some _ =>
              match parseSchedule env.isWeekend env.nowHour env.nowMin schedule with
              | Except.error e => some e
              | Except.ok _ => none
            | none => none
          match validated with
          | some e => ⟨some e, file, [], []⟩
          | none =>
            let s2 : State := {s1 with Manual := form.manual, Schedule := strTrim schedule}
            ⟨none, setState s2, [s2], []⟩
      else ⟨none, file, [], []⟩
    else ⟨none, file, [], []⟩

/-- The doScheduled of cmd/main.go: read the state, evaluate its schedule
and feed a non-empty action to act as an autonomous call. -/
def doScheduled (env : Env) (file : Option String) : ActOut :=
  match getState file with
  | none => ⟨some "state unreadable", file, [], []⟩
  | some state =>
    match parseSchedule env.isWeekend env.nowHour env.nowMin state.Schedule with
    | Except.error e => ⟨some e, file, [], []⟩
    | Except.ok a =>
      if a ≠ "" then act a true none env file
      else ⟨none, file, [], []⟩

/-- One cycle of schedulerDaemon in cmd/main.go: clear and persist an
expired Override when the calendar day advanced (or the state is manual),
then run the scheduled action unless the state is manual; a read failure
skips the cycle, and errors of the scheduled action are logged only. -/
def cycle (dayChanged : Bool) (env : Env) (file : Option String) : ActOut :=
  match getState file with
  | none => ⟨none, file, [], []⟩
  | some state =>
    let step1 :=
      if (dayChanged || state.Manual) && state.Override then
        let s1 : State := {state with Override := false}
        ((setState s1 : Option String), [s1])
      else (file, ([] : List State))
    let file1 := step1.1
    let writes1 := step1.2
    if !state.Manual then
      let r := doScheduled env file1
      ⟨r.err, r.file, writes1 ++ r.writes, r.sends⟩
    else ⟨none, file1, writes1, []⟩

/-- Sample stored state used to instantiate universally quantified
theorems: mode HEAT, empty schedule, locked, not running. -/
def sampleState : State := ⟨"HEAT", "", false, true, false⟩

/-- Sample environment with a working actuator and HEAT configured. -/
def sampleEnv : Env := ⟨["HEAT"], "BRYANT", "/run/lirc/lircd", "/usr/bin/irsend", true, false, 10, 0⟩

/-- Sample environment whose actuator invocation fails. -/
def sampleEnvFail : Env :=
  ⟨["HEAT"], "BRYANT", "/run/lirc/lircd", "/usr/bin/irsend", false, false, 10, 0⟩

/-- Sample empty form of a web request. -/
def sampleForm : Form := ⟨none, false, none⟩

@[simp] lemma specMatches_true_iff (now t : scheduleTime) :
    specMatches now t = true ↔ (t.min ≤ now.min ∧ t.hour ≤ now.hour) := by
  simp [specMatches]

@[simp] lemma specLater_true_iff (now t : scheduleTime) :
    specLater now t = true ↔ (now.min < t.min ∧ now.hour < t.hour) := by
  simp [specLater]

/-- The matching loop of the source computes exactly the claim-level scan:
the action of the last matching scanned rule, with the incoming match as the
default. The side condition says every timing carries a real action, which
the parser guarantees. -/
lemma matchLoop_eq_spec (now : scheduleTime) (ts : List scheduleTime) (m : String)
    (hts : ∀ t ∈ ts, t.action ≠ "") :
    matchLoop now m ts =
      (match ((specScan now (m != "") ts).filter (specMatches now)).getLast? with
       | some t => t.action
       | none => m) := by
  induction ts generalizing m with
  | nil => simp [matchLoop, specScan]
  | cons t ts ih =>
    have hact : t.action ≠ "" := hts t (List.mem_cons_self t ts)
    have hrest : ∀ u ∈ ts, u.action ≠ "" := fun u hu => hts u (List.mem_cons_of_mem t hu)
    by_cases hm : t.min ≤ now.min ∧ t.hour ≤ now.hour
    · -- the rule matches; the stop test cannot fire on it
      have hlater : ¬ (now.min < t.min ∧ now.hour < t.hour) := by
        intro h
        exact absurd hm.1 (not_le.mpr h.1)
      have hMb : specMatches now t = true := by simp [hm.1, hm.2]
      have hLb : specLater now t = false := by
        rw [Bool.eq_false_iff]
        intro h
        exact hlater (specLater_true_iff now t |>.mp h)
      have hta : (t.action != "") = true := by simp [bne_iff_ne, hact]
      have hloop : matchLoop now m (t :: ts) = matchLoop now t.action ts := by
        rw [matchLoop]
        rw [if_pos (show now.min ≥ t.min ∧ now.hour ≥ t.hour from ⟨hm.1, hm.2⟩)]
        exact if_neg (fun hh => hlater hh.2)
      have hscan : specScan now (m != "") (t :: ts) = t :: specScan now true ts := by
        rw [specScan]
        simp [hMb, hLb]
      rw [hloop, hscan, List.filter_cons_of_pos hMb, ih (t.action) hrest, hta]
      cases hlast : ((specScan now true ts).filter (specMatches now)).getLast? with
      | none =>
        have hsing : (specScan now true ts).filter (specMatches now) = [] := by
          rcases hnil : (specScan now true ts).filter (specMatches now) with _ | ⟨x, xs⟩
          · rfl
          · rw [hnil] at hlast
            simp at hlast
        rw [hsing]
        simp
      | some u =>
        have hcons : (t :: (specScan now true ts).filter (specMatches now)).getLast? = some u := by
          rcases hnil : (specScan now true ts).filter (specMatches now) with _ | ⟨x, xs⟩
          · rw [hnil] at hlast
            simp at hlast
          · rw [hnil] at hlast
            rw [List.getLast?_cons_cons, hlast]
        rw [hcons]
    · -- the rule does not match
      have hMb : specMatches now t = false := by
        rw [Bool.eq_false_iff]
        intro h
        exact hm (specMatches_true_iff now t |>.mp h)
      have hnotm : ¬ (now.min ≥ t.min ∧ now.hour ≥ t.hour) := fun hh => hm ⟨hh.1, hh.2⟩
      by_cases hbreak : m ≠ "" ∧ now.min < t.min ∧ now.hour < t.hour
      · -- scanning stops here with the incoming match
        have hmb : (m != "") = true := by simp [bne_iff_ne, hbreak.1]
        have hLb : specLater now t = true := by simp [hbreak.2.1, hbreak.2.2]
        have hloop : matchLoop now m (t :: ts) = m := by
          rw [matchLoop]
          rw [if_neg hnotm]
          exact if_pos hbreak
        have hscan : specScan now (m != "") (t :: ts) = [t] := by
          rw [specScan]
          simp [hmb, hLb]
        rw [hloop, hscan, List.filter_cons_of_neg (by simp [hMb])]
        simp
      · -- no stop: recurse with the same match
        have hstop : ((m != "") && specLater now t) = false := by
          cases hL : specLater now t with
          | false => simp
          | true =>
            have hlat := specLater_true_iff now t |>.mp hL
            have hme : m = "" := by
              by_contra hne
              exact hbreak ⟨hne, hlat⟩
            simp [hme]
        have hloop : matchLoop now m (t :: ts) = matchLoop now m ts := by
          rw [matchLoop]
          rw [if_neg hnotm]
          exact if_neg hbreak
        have hscan : specScan now (m != "") (t :: ts) = t :: specScan now (m != "") ts := by
          rw [specScan]
          simp only [hMb, Bool.or_false]
          rw [hstop]
          simp
        rw [hloop, hscan, List.filter_cons_of_neg (by simp [hMb]), ih m hrest]

/-- A rule kept by the line parser always carries the action on or off. -/
lemma parseLine_action (wk : Bool) (line : List Char) (t : scheduleTime)
    (h : parseLine wk line = Except.ok (some t)) :
    t.action = "on" ∨ t.action = "off" := by
  unfold parseLine at h
  split at h
  · rename_i minTok hourTok dayTok actTok heq
    split at h
    · simp at h
    rename_i hAct
    have hOr : actTok = "on".data ∨ actTok = "off".data := by
      rcases not_and_or.mp hAct with h1 | h1
      · exact Or.inl (not_ne_iff.mp h1)
      · exact Or.inr (not_ne_iff.mp h1)
    split at h
    · simp at h
    split at h
    · simp at h
    split at h
    · simp at h
    split at h
    · simp at h
    split at h
    · have hact : t.action = String.mk actTok := by
        split at h <;> split at h <;> simp at h <;> rw [← h]
      rcases hOr with h1 | h1
      · left
        rw [hact, h1]
      · right
        rw [hact, h1]
    · simp at h
  · simp at h

/-- Every rule kept by parseLines carries the action on or off. -/
lemma parseLines_actions (wk : Bool) (lines : List (List Char)) (rs : List scheduleTime)
    (h : parseLines wk lines = Except.ok rs) :
    ∀ t ∈ rs, t.action = "on" ∨ t.action = "off" := by
  induction lines generalizing rs with
  | nil =>
    unfold parseLines at h
    simp at h
    subst h
    intro t ht
    simp at ht
  | cons line rest ih =>
    unfold parseLines at h
    split at h
    · exact ih rs h
    · split at h
      · simp at h
      · exact ih rs h
      · rename_i t0 hline
        split at h
        · simp at h
        · rename_i ts0 hrest
          simp at h
          subst h
          intro u hu
          rcases List.mem_cons.mp hu with h1 | h1
          · rw [h1]
            exact parseLine_action wk line t0 hline
          · exact ih ts0 hrest u h1

/-- A line the parser accepts (kept or skipped by day type) satisfies the
spec-level validity predicate. -/
lemma parseLine_ok_valid (wk : Bool) (line : List Char) (r : Option scheduleTime)
    (h : parseLine wk line = Except.ok r) : specLineValid line = true := by
  unfold parseLine at h
  unfold specLineValid
  split at h
  · rename_i minTok hourTok dayTok actTok heq
    split at h
    · simp at h
    rename_i hAct
    have hOr : actTok = "on".data ∨ actTok = "off".data := by
      rcases not_and_or.mp hAct with h1 | h1
      · exact Or.inl (not_ne_iff.mp h1)
      · exact Or.inr (not_ne_iff.mp h1)
    split at h
    · simp at h
    rename_i hour hH
    split at h
    · simp at h
    rename_i hHr
    split at h
    · simp at h
    rename_i mn hM
    split at h
    · simp at h
    rename_i hMr
    split at h
    · rename_i hDay
      push_neg at hHr hMr
      rw [hM, hH]
      simp only [hMr.1, hMr.2, hHr.1, hHr.2, and_self, decide_True, Bool.true_and]
      rcases hDay with hD | hD <;> rcases hOr with hA | hA <;> simp [hD, hA]
    · simp at h
  · simp at h

/-- Every non-skipped line of a successfully parsed schedule is valid. -/
lemma parseLines_all_valid (wk : Bool) (lines : List (List Char)) (rs : List scheduleTime)
    (h : parseLines wk lines = Except.ok rs) :
    ∀ line ∈ lines, (line.isEmpty || startsWithHash line) = false →
      specLineValid line = true := by
  induction lines generalizing rs with
  | nil =>
    intro l hl
    simp at hl
  | cons line rest ih =>
    unfold parseLines at h
    intro l hl hskip
    rcases List.mem_cons.mp hl with h1 | h1
    · subst h1
      split at h
      · rename_i hcond
        rw [hskip] at hcond
        simp at hcond
      · split at h
        · simp at h
        · rename_i heqPL
          exact parseLine_ok_valid wk l _ heqPL
        · rename_i t0 heqPL
          exact parseLine_ok_valid wk l _ heqPL
    · split at h
      · exact ih rs h l h1 hskip
      · split at h
        · simp at h
        · exact ih rs h l h1 hskip
        · rename_i t0 hline
          split at h
          · simp at h
          · rename_i ts0 hrest
            exact ih ts0 hrest l h1 hskip

/-- C3: for every schedule text the evaluator accepts, the timing list it
scans is the synthetic 00:00 off rule followed by the day-filtered rules in
file order, and the returned action is exactly the claim-level scan result:
the last scanned rule matching under the componentwise minute and hour
comparison, where scanning stops after the first rule strictly later in both
components once a match exists. -/
theorem schedule_eval_is_spec_scan (wk : Bool) (h m : Int) (text : String)
    (ts : List scheduleTime) (hp : parseTimings wk text = Except.ok ts) :
    (∃ rules, parseLines wk (splitChar '\n' (trimList text.data)) = Except.ok rules ∧
      ts = ⟨0, 0, "off"⟩ :: rules) ∧
    parseSchedule wk h m text = Except.ok (specResult ⟨h, m, ""⟩ ts) := by
  unfold parseTimings at hp
  split at hp
  · simp at hp
  · rename_i rs hrs
    have hts : ts = ⟨0, 0, "off"⟩ :: rs := by
      simp at hp
      rw [← hp]
    refine ⟨⟨rs, hrs, hts⟩, ?_⟩
    unfold parseSchedule parseTimings
    rw [hrs, hts]
    have hacts : ∀ t ∈ (⟨0, 0, "off"⟩ : scheduleTime) :: rs, t.action ≠ "" := by
      intro t ht
      rcases List.mem_cons.mp ht with h1 | h1
      · rw [h1]
        intro hc
        simp at hc
      · rcases parseLines_actions wk _ rs hrs t h1 with h2 | h2 <;> rw [h2] <;> simp
    show Except.ok (matchLoop ⟨h, m, ""⟩ "" (⟨0, 0, "off"⟩ :: rs)) =
      Except.ok (specResult ⟨h, m, ""⟩ (⟨0, 0, "off"⟩ :: rs))
    rw [matchLoop_eq_spec ⟨h, m, ""⟩ (⟨0, 0, "off"⟩ :: rs) "" hacts]
    rfl

/-- C3 witness at the concrete input of the claim: the text has a rule at
minute 50, hour 0 and the current time 23:05 does not match it
componentwise, so the synthetic off rule is the last match. -/
theorem schedule_eval_is_spec_scan_witness :
    ((∃ rules,
        parseLines false (splitChar '\n' (trimList ("50 0 weekday on").data)) =
          Except.ok rules ∧
        ([⟨0, 0, "off"⟩, ⟨0, 50, "on"⟩] : List scheduleTime) = ⟨0, 0, "off"⟩ :: rules) ∧
      parseSchedule false 23 5 "50 0 weekday on" =
        Except.ok (specResult ⟨23, 5, ""⟩ [⟨0, 0, "off"⟩, ⟨0, 50, "on"⟩])) ∧
    specResult ⟨23, 5, ""⟩ [⟨0, 0, "off"⟩, ⟨0, 50, "on"⟩] = "off" :=
  ⟨schedule_eval_is_spec_scan false 23 5 "50 0 weekday on"
    [⟨0, 0, "off"⟩, ⟨0, 50, "on"⟩] (by decide), by decide⟩

/-- C4 counterexample: on a weekday at 10:00 the weekend-only schedule text
evaluates to off via the synthetic rule, not to none as the claim states. -/
theorem weekend_schedule_weekday_counterexample :
    parseSchedule false 10 0 "0 9 weekend on" = Except.ok "off" ∧
    ¬ parseSchedule false 10 0 "0 9 weekend on" = Except.ok "" :=
  ⟨by decide, by decide⟩

/-- C4 amended: on a weekday, at any valid time, the weekend-only text
evaluates to off, supplied by the synthetic 00:00 rule that is never
filtered by day type; on a weekend at 10:00 it evaluates to on. -/
theorem weekend_schedule_daytype (h m : Int) (hh : 0 ≤ h) (hm : 0 ≤ m) :
    parseSchedule false h m "0 9 weekend on" = Except.ok "off" ∧
    parseSchedule true 10 0 "0 9 weekend on" = Except.ok "on" := by
  refine ⟨?_, by decide⟩
  have hpt : parseTimings false "0 9 weekend on" = Except.ok [⟨0, 0, "off"⟩] := by decide
  unfold parseSchedule
  rw [hpt]
  have hml : matchLoop ⟨h, m, ""⟩ "" [⟨0, 0, "off"⟩] = "off" := by
    rw [matchLoop]
    rw [if_pos (show m ≥ (0 : Int) ∧ h ≥ (0 : Int) from ⟨hm, hh⟩)]
    rw [if_neg (fun hc => absurd hc.2.1 (not_lt.mpr hm))]
    rfl
  show Except.ok (matchLoop ⟨h, m, ""⟩ "" [⟨0, 0, "off"⟩]) = Except.ok "off"
  rw [hml]

/-- C4 amended witness at a weekday 10:00 and the weekend 10:00. -/
theorem weekend_schedule_daytype_witness :
    (0 : Int) ≤ 10 ∧ (0 : Int) ≤ 0 ∧
    (parseSchedule false 10 0 "0 9 weekend on" = Except.ok "off" ∧
     parseSchedule true 10 0 "0 9 weekend on" = Except.ok "on") :=
  ⟨by decide, by decide, weekend_schedule_daytype 10 0 (by decide) (by decide)⟩

/-- C5: the two-rule weekday schedule evaluates to on at a weekday 09:00, to
off at 19:00 and to off at 07:00, the last supplied by the synthetic 00:00
off rule. -/
theorem weekday_schedule_scenarios :
    parseSchedule false 9 0 "0 8 weekday on\n0 18 weekday off" = Except.ok "on" ∧
    parseSchedule false 19 0 "0 8 weekday on\n0 18 weekday off" = Except.ok "off" ∧
    parseSchedule false 7 0 "0 8 weekday on\n0 18 weekday off" = Except.ok "off" :=
  ⟨by decide, by decide, by decide⟩

/-- C6: a schedule text containing a non-comment line that violates the
grammar or ranges fails to evaluate: the parser aborts with an error and no
rule is applied, regardless of valid lines before the invalid one. -/
theorem invalid_line_aborts (wk : Bool) (h m : Int) (text : String)
    (hinv : ∃ line ∈ splitChar '\n' (trimList text.data),
      (line.isEmpty || startsWithHash line) = false ∧ specLineValid line = false) :
    ∃ e, parseSchedule wk h m text = Except.error e := by
  rcases hinv with ⟨line, hmem, hskip, hval⟩
  cases hpl : parseLines wk (splitChar '\n' (trimList text.data)) with
  | error e =>
    refine ⟨e, ?_⟩
    unfold parseSchedule parseTimings
    rw [hpl]
  | ok rs =>
    have hv := parseLines_all_valid wk _ rs hpl line hmem hskip
    rw [hval] at hv
    exact absurd hv (by simp)

/-- C6 witness: a valid line followed by a line with minute 70 makes the
whole evaluation fail, with the error naming the violated constraint. -/
theorem invalid_line_aborts_witness :
    (∃ line ∈ splitChar '\n' (trimList ("0 8 weekday on\n70 8 weekday on").data),
      (line.isEmpty || startsWithHash line) = false ∧ specLineValid line = false) ∧
    (∃ e, parseSchedule false 10 0 "0 8 weekday on\n70 8 weekday on" = Except.error e) ∧
    parseSchedule false 10 0 "0 8 weekday on\n70 8 weekday on" =
      Except.error "minute is invalid" :=
  ⟨⟨"70 8 weekday on".data, by decide, by decide, by decide⟩,
   invalid_line_aborts false 10 0 "0 8 weekday on\n70 8 weekday on"
     ⟨"70 8 weekday on".data, by decide, by decide, by decide⟩,
   by decide⟩

lemma dropLit_append (p l : List Char) : dropLit p (p ++ l) = some l := by
  induction p with
  | nil => rfl
  | cons c cs ih => simp [dropLit, ih]

lemma hexVal_hexDigitChar (n : Nat) (hn : n < 16) : hexVal (hexDigitChar n) = some n := by
  have hfin : ∀ k : Fin 16, hexVal (hexDigitChar k.val) = some k.val := by decide
  exact hfin ⟨n, hn⟩

lemma strMk_data (s : String) : String.mk s.data = s := by
  cases s
  rfl

/-- Escaping one character and then decoding restores the character in
front of whatever the decoder produces for the remainder. -/
lemma parseStringBody_escChar (c : Char) (k out rem : List Char)
    (hk : parseStringBody k = some (out, rem)) :
    parseStringBody (escapeChar c ++ k) = some (c :: out, rem) := by
  by_cases h1 : c = '"'
  · subst h1
    rw [show escapeChar '"' = ['\\', '"'] from rfl]
    have hstep : parseStringBody (['\\', '"'] ++ k) =
        (match parseStringBody k with
         | some (o, r) => some ('"' :: o, r)
         | none => none) := rfl
    rw [hstep, hk]
  by_cases h2 : c = '\\'
  · subst h2
    rw [show escapeChar '\\' = ['\\', '\\'] from rfl]
    have hstep : parseStringBody (['\\', '\\'] ++ k) =
        (match parseStringBody k with
         | some (o, r) => some ('\\' :: o, r)
         | none => none) := rfl
    rw [hstep, hk]
  by_cases h3 : c = '\n'
  · subst h3
    rw [show escapeChar '\n' = ['\\', 'n'] from rfl]
    have hstep : parseStringBody (['\\', 'n'] ++ k) =
        (match parseStringBody k with
         | some (o, r) => some ('\n' :: o, r)
         | none => none) := rfl
    rw [hstep, hk]
  by_cases h4 : c = '\r'
  · subst h4
    rw [show escapeChar '\r' = ['\\', 'r'] from rfl]
    have hstep : parseStringBody (['\\', 'r'] ++ k) =
        (match parseStringBody k with
         | some (o, r) => some ('\r' :: o, r)
         | none => none) := rfl
    rw [hstep, hk]
  by_cases h5 : c = '\t'
  · subst h5
    rw [show escapeChar '\t' = ['\\', 't'] from rfl]
    have hstep : parseStringBody (['\\', 't'] ++ k) =
        (match parseStringBody k with
         | some (o, r) => some ('\t' :: o, r)
         | none => none) := rfl
    rw [hstep, hk]
  by_cases h6 : c = '<' ∨ c = '>' ∨ c = '&' ∨ c.toNat < 32
  · have he : escapeChar c = ['\\', 'u', '0', '0', hexDigitChar (c.toNat / 16),
        hexDigitChar (c.toNat % 16)] := by
      rw [escapeChar, if_neg h1, if_neg h2, if_neg h3, if_neg h4, if_neg h5, if_pos h6]
    rw [he]
    have hdiv : c.toNat / 16 < 16 := by
      rcases h6 with h | h | h | h
      · subst h
        decide
      · subst h
        decide
      · subst h
        decide
      · omega
    have hmod : c.toNat % 16 < 16 := Nat.mod_lt _ (by omega)
    have hstep : parseStringBody (['\\', 'u', '0', '0', hexDigitChar (c.toNat / 16),
        hexDigitChar (c.toNat % 16)] ++ k) =
        (match hexVal '0', hexVal '0', hexVal (hexDigitChar (c.toNat / 16)),
            hexVal (hexDigitChar (c.toNat % 16)) with
         | some ha, some hb, some hc, some hd =>
           (match parseStringBody k with
            | some (o, r) => some (Char.ofNat (((ha * 16 + hb) * 16 + hc) * 16 + hd) :: o, r)
            | none => none)
         | _, _, _, _ => none) := rfl
    rw [hstep, hexVal_hexDigitChar _ hdiv, hexVal_hexDigitChar _ hmod, hk]
    show some (Char.ofNat (((0 * 16 + 0) * 16 + c.toNat / 16) * 16 + c.toNat % 16) :: out, rem) =
      some (c :: out, rem)
    have hval : ((0 * 16 + 0) * 16 + c.toNat / 16) * 16 + c.toNat % 16 = c.toNat := by
      omega
    rw [hval, Char.ofNat_toNat]
  by_cases h7 : c.toNat = 8232 ∨ c.toNat = 8233
  · have he : escapeChar c = ['\\', 'u', '2', '0', '2', hexDigitChar (c.toNat % 16)] := by
      rw [escapeChar, if_neg h1, if_neg h2, if_neg h3, if_neg h4, if_neg h5, if_neg h6,
        if_pos h7]
    rw [he]
    have hmod : c.toNat % 16 < 16 := Nat.mod_lt _ (by omega)
    have hstep : parseStringBody (['\\', 'u', '2', '0', '2',
        hexDigitChar (c.toNat % 16)] ++ k) =
        (match hexVal '2', hexVal '0', hexVal '2', hexVal (hexDigitChar (c.toNat % 16)) with
         | some ha, some hb, some hc, some hd =>
           (match parseStringBody k with
            | some (o, r) => some (Char.ofNat (((ha * 16 + hb) * 16 + hc) * 16 + hd) :: o, r)
            | none => none)
         | _, _, _, _ => none) := rfl
    rw [hstep, hexVal_hexDigitChar _ hmod, hk]
    show some (Char.ofNat (((2 * 16 + 0) * 16 + 2) * 16 + c.toNat % 16) :: out, rem) =
      some (c :: out, rem)
    have hval : ((2 * 16 + 0) * 16 + 2) * 16 + c.toNat % 16 = c.toNat := by
      rcases h7 with h | h <;> omega
    rw [hval, Char.ofNat_toNat]
  · have he : escapeChar c = [c] := by
      rw [escapeChar, if_neg h1, if_neg h2, if_neg h3, if_neg h4, if_neg h5, if_neg h6,
        if_neg h7]
    rw [he, List.singleton_append]
    rw [parseStringBody.eq_def]
    split
    · rename_i heq
      exact absurd heq (by simp)
    · rename_i rest heq
      exact absurd (List.head_eq_of_cons_eq heq) h1
    · rename_i a b c2 d rest heq
      exact absurd (List.head_eq_of_cons_eq heq) h2
    · rename_i e rest heq
      exact absurd (List.head_eq_of_cons_eq heq) h2
    · rename_i heq
      have hc := List.head_eq_of_cons_eq heq
      have hr := List.tail_eq_of_cons_eq heq
      rw [← hc, ← hr, hk]

/-- Decoding inverts the escaped body of a JSON string. -/
lemma parseStringBody_encode (s rest : List Char) :
    parseStringBody ((s.map escapeChar).flatten ++ ('"' :: rest)) = some (s, rest) := by
  induction s with
  | nil => simp [parseStringBody]
  | cons c cs ih =>
    rw [List.map_cons, List.flatten_cons, List.append_assoc]
    exact parseStringBody_escChar c _ cs rest ih

/-- Decoding inverts the JSON string encoder. -/
lemma parseJString_encode (s : String) (rest : List Char) :
    parseJString (encodeString s ++ rest) = some (s, rest) := by
  rw [encodeString]
  rw [List.cons_append, List.append_assoc]
  simp only [List.singleton_append]
  simp [parseJString, parseStringBody_encode, strMk_data]

/-- Decoding inverts the JSON boolean encoder. -/
lemma parseJBool_encode (b : Bool) (rest : List Char) :
    parseJBool (encodeBool b ++ rest) = some (b, rest) := by
  cases b <;> simp [parseJBool, encodeBool, dropLit]

/-- The State decoder inverts the State encoder at the character level. -/
lemma decode_encode_chars (s : State) : decodeStateChars (encodeStateChars s) = some s := by
  have hassoc : encodeStateChars s =
      keyOpMode ++ (encodeString s.OpMode ++ (keySchedule ++ (encodeString s.Schedule ++
        (keyManual ++ (encodeBool s.Manual ++ (keyOverride ++ (encodeBool s.Override ++
        (keyRunning ++ (encodeBool s.Running ++ ['\x7d']))))))))) := by
    simp [encodeStateChars, List.append_assoc]
  rw [hassoc]
  simp [decodeStateChars, dropLit_append, parseJString_encode, parseJBool_encode]

/-- C9: setState followed by getState returns the same full record: the
five State fields round-trip through the persisted JSON file. -/
theorem state_roundtrip (s : State) : getState (setState s) = some s := by
  show decodeStateChars (encodeStateChars s) = some s
  exact decode_encode_chars s

/-- C10: an act call whose change flag is false (a non-POST request) writes
nothing: the stored file is unchanged, nothing is persisted or transmitted,
and the call errs exactly when reading the state fails. -/
theorem act_no_change_is_frame (action : String) (req : Option Form) (env : Env)
    (file : Option String) :
    (act action false req env file).file = file ∧
    (act action false req env file).writes = [] ∧
    (act action false req env file).sends = [] ∧
    ((act action false req env file).err = none ↔ (getState file).isSome) := by
  rcases hg : getState file with _ | s <;> simp [act, hg]

lemma getState_encode (s : State) : getState (some (encodeState s)) = some s :=
  state_roundtrip s

/-- C1: with Override set, an autonomous on call leaves the file untouched,
persists nothing and never reaches the actuator, while the same call as a
web request returns no error and leaves the persisted Override set; success
of the web call presumes the stored OpMode is configured and the actuator
transmission succeeds, whose failure case is covered separately. -/
theorem override_lock_enforcement (s : State) (f : Form) (env : Env)
    (hov : s.Override = true) (hmode : s.OpMode ∈ env.opModes) (hir : env.irOk = true) :
    ((act "on" true none env (some (encodeState s))).err = none ∧
     (act "on" true none env (some (encodeState s))).file = some (encodeState s) ∧
     (act "on" true none env (some (encodeState s))).writes = [] ∧
     (act "on" true none env (some (encodeState s))).sends = []) ∧
    ((act "on" true (some f) env (some (encodeState s))).err = none ∧
     ∃ s2, (act "on" true (some f) env (some (encodeState s))).file = some (encodeState s2) ∧
       s2.Override = true) := by
  have hge := getState_encode s
  have hcontains : env.opModes.contains s.OpMode = true := List.elem_eq_true_of_mem hmode
  constructor
  · simp [act, hge, hov]
  · cases hman : s.Manual
    case false =>
      cases hrun : s.Running
      case false =>
        refine ⟨?_, {{s with Override := true} with Running := true}, ?_, ?_⟩ <;>
          simp [act, setState, hge, hman, hrun, hov, hcontains, hir, hmode]
      case true =>
        refine ⟨?_, {s with Override := true}, ?_, ?_⟩ <;>
          simp [act, setState, hge, hman, hrun, hov, hcontains, hir, hmode]
    case true =>
      cases hrun : s.Running
      case false =>
        refine ⟨?_, {s with Running := true}, ?_, ?_⟩ <;>
          simp [act, setState, hge, hman, hrun, hov, hcontains, hir, hmode]
      case true =>
        refine ⟨?_, s, ?_, ?_⟩ <;>
          simp [act, setState, hge, hman, hrun, hov, hcontains, hir, hmode]

/-- C1 witness at a locked sample state with a working actuator. -/
theorem override_lock_enforcement_witness :
    (sampleState.Override = true ∧ sampleState.OpMode ∈ sampleEnv.opModes ∧
      sampleEnv.irOk = true) ∧
    (((act "on" true none sampleEnv (some (encodeState sampleState))).err = none ∧
      (act "on" true none sampleEnv (some (encodeState sampleState))).file =
        some (encodeState sampleState) ∧
      (act "on" true none sampleEnv (some (encodeState sampleState))).writes = [] ∧
      (act "on" true none sampleEnv (some (encodeState sampleState))).sends = []) ∧
     ((act "on" true (some sampleForm) sampleEnv (some (encodeState sampleState))).err = none ∧
      ∃ s2, (act "on" true (some sampleForm) sampleEnv
          (some (encodeState sampleState))).file = some (encodeState s2) ∧
        s2.Override = true)) :=
  ⟨⟨rfl, by decide, rfl⟩,
   override_lock_enforcement sampleState sampleForm sampleEnv rfl (by decide) rfl⟩

/-- C2: when the actuator transmission fails, an on or off act call leaves
the persisted Running flag unchanged, and whenever the actuator was invoked
at all the call returns the error. -/
theorem actuator_failure_keeps_running (s : State) (action : String) (req : Option Form)
    (env : Env) (ha : action = "on" ∨ action = "off") (hir : env.irOk = false) :
    ((getState (act action true req env (some (encodeState s))).file).map State.Running =
      some s.Running) ∧
    ((act action true req env (some (encodeState s))).sends ≠ [] →
      (act action true req env (some (encodeState s))).err ≠ none) := by
  rcases ha with ha | ha <;> subst ha <;>
    rcases req with _ | f <;>
    cases hman : s.Manual <;>
    cases hov : s.Override <;>
    cases hrun : s.Running <;>
    by_cases hc : s.OpMode ∈ env.opModes <;>
    simp [act, setState, hman, hov, hrun, hir, hc, getState_encode]

/-- C2 witness: the failing actuator on the sample locked state. -/
theorem actuator_failure_keeps_running_witness :
    (("on" = "on" ∨ "on" = "off") ∧ sampleEnvFail.irOk = false) ∧
    (((getState (act "on" true none sampleEnvFail
        (some (encodeState sampleState))).file).map State.Running =
      some sampleState.Running) ∧
     ((act "on" true none sampleEnvFail (some (encodeState sampleState))).sends ≠ [] →
      (act "on" true none sampleEnvFail (some (encodeState sampleState))).err ≠ none)) :=
  ⟨⟨Or.inl rfl, rfl⟩,
   actuator_failure_keeps_running sampleState "on" none sampleEnvFail (Or.inl rfl) rfl⟩

/-- The matching loop returns its incoming match or the action of one of
the timings. -/
lemma matchLoop_mem (now : scheduleTime) (m : String) (ts : List scheduleTime) :
    matchLoop now m ts = m ∨ ∃ t ∈ ts, matchLoop now m ts = t.action := by
  induction ts generalizing m with
  | nil =>
    left
    rfl
  | cons t ts ih =>
    rw [matchLoop]
    by_cases hc1 : now.min ≥ t.min ∧ now.hour ≥ t.hour
    · rw [if_pos hc1]
      by_cases hc2 : t.action ≠ "" ∧ now.min < t.min ∧ now.hour < t.hour
      · rw [if_pos hc2]
        right
        exact ⟨t, List.mem_cons_self t ts, rfl⟩
      · rw [if_neg hc2]
        rcases ih t.action with h | ⟨u, hu, hh⟩
        · right
          exact ⟨t, List.mem_cons_self t ts, h⟩
        · right
          exact ⟨u, List.mem_cons_of_mem t hu, hh⟩
    · rw [if_neg hc1]
      by_cases hc2 : m ≠ "" ∧ now.min < t.min ∧ now.hour < t.hour
      · rw [if_pos hc2]
        left
        rfl
      · rw [if_neg hc2]
        rcases ih m with h | ⟨u, hu, hh⟩
        · left
          exact h
        · right
          exact ⟨u, List.mem_cons_of_mem t hu, hh⟩

/-- A successful schedule evaluation yields none, on or off. -/
lemma parseSchedule_result (wk : Bool) (h m : Int) (sched a : String)
    (hp : parseSchedule wk h m sched = Except.ok a) :
    a = "" ∨ a = "on" ∨ a = "off" := by
  unfold parseSchedule at hp
  split at hp
  · simp at hp
  · rename_i ts hts
    have hinj : matchLoop ⟨h, m, ""⟩ "" ts = a := by
      simp at hp
      exact hp
    unfold parseTimings at hts
    split at hts
    · simp at hts
    · rename_i rs hrs
      have hts2 : (⟨0, 0, "off"⟩ : scheduleTime) :: rs = ts := by
        simp at hts
        exact hts
      rw [← hts2] at hinj
      rcases matchLoop_mem ⟨h, m, ""⟩ "" (⟨0, 0, "off"⟩ :: rs) with h1 | ⟨u, hu, h2⟩
      · left
        rw [← hinj, h1]
      · rcases List.mem_cons.mp hu with h3 | h3
        · right
          right
          rw [← hinj, h2, h3]
        · rcases parseLines_actions wk _ rs hrs u h3 with h4 | h4
          · right
            left
            rw [← hinj, h2, h4]
          · right
            right
            rw [← hinj, h2, h4]

/-- C8: with Override set and the calendar day advanced, one daemon cycle
persists the Override-cleared record exactly once, and the stored state
afterwards has Override false; any schedule-driven actuation in the same
cycle persists only a record differing in Running. -/
theorem daemon_cycle_clears_override (s : State) (env : Env) (hov : s.Override = true) :
    ((cycle true env (some (encodeState s))).writes.countP
        (fun w => decide (w = {s with Override := false}))) = 1 ∧
    ((getState (cycle true env (some (encodeState s))).file).map State.Override) =
      some false := by
  cases hman : s.Manual
  case true =>
    simp [cycle, setState, hov, hman, getState_encode]
  case false =>
    rcases hp : parseSchedule env.isWeekend env.nowHour env.nowMin s.Schedule with e | a
    · simp [cycle, doScheduled, setState, hov, hman, getState_encode, hp]
    · rcases parseSchedule_result _ _ _ _ _ hp with ha | ha | ha
      · subst ha
        simp [cycle, doScheduled, setState, hov, hman, getState_encode, hp]
      · subst ha
        cases hrun : s.Running
        case true =>
          simp [cycle, doScheduled, act, setState, hov, hman, hrun, getState_encode, hp]
        case false =>
          by_cases hc : s.OpMode ∈ env.opModes <;>
            cases hirc : env.irOk <;>
            simp [cycle, doScheduled, act, setState, hov, hman, hrun, getState_encode, hp,
              hc, hirc]
      · subst ha
        cases hrun : s.Running
        case false =>
          simp [cycle, doScheduled, act, setState, hov, hman, hrun, getState_encode, hp]
        case true =>
          by_cases hc : s.OpMode ∈ env.opModes <;>
            cases hirc : env.irOk <;>
            simp [cycle, doScheduled, act, setState, hov, hman, hrun, getState_encode, hp,
              hc, hirc]

/-- C8 witness on the locked sample state. -/
theorem daemon_cycle_clears_override_witness :
    sampleState.Override = true ∧
    (((cycle true sampleEnv (some (encodeState sampleState))).writes.countP
        (fun w => decide (w = {sampleState with Override := false}))) = 1 ∧
     ((getState (cycle true sampleEnv (some (encodeState sampleState))).file).map
        State.Override) = some false) :=
  ⟨rfl, daemon_cycle_clears_override sampleState sampleEnv rfl⟩

/-- C7 evaluated at its failing input: with a valid configured mode HEAT the
actuator is invoked with the bare OpMode string HEAT as the irsend key, and
the composed token HEATSTART appears nowhere in the command. -/
theorem actuator_receives_bare_opmode :
    (act "on" true (some ⟨none, false, none⟩)
      ⟨["HEAT"], "BRYANT", "/run/lirc/lircd", "/usr/bin/irsend", true, false, 10, 0⟩
      (some (encodeState ⟨"HEAT", "", false, false, false⟩))).sends =
      [["/usr/bin/irsend", "--device=/run/lirc/lircd", "SEND_ONCE", "BRYANT", "HEAT"]] ∧
    ∀ argv ∈ (act "on" true (some ⟨none, false, none⟩)
      ⟨["HEAT"], "BRYANT", "/run/lirc/lircd", "/usr/bin/irsend", true, false, 10, 0⟩
      (some (encodeState ⟨"HEAT", "", false, false, false⟩))).sends,
      ("HEAT" ++ "START") ∉ argv := by
  constructor
  · decide
  · decide

end Wit
